import Mathlib

/-!
Verification of the NotebookLM opencode-plugin protocol and credential layer.

The development shallowly embeds the wire codec (src/client/encoding.ts,
src/client/api.ts), the retry transport (src/client/recovery.ts) and the
credential recovery state machine (src/auth/manager.ts).  JavaScript values
flowing through the decoders are modelled by an inductive JSON type; the
built-in JSON.parse applied to strings inside payloads is treated as an
oracle parameter, since the decoders only forward its result.
-/

namespace NotebookLM

/-- Dynamic JSON value as produced by JSON.parse.  JS numbers are modelled as
integers; every numeric literal compared by the decoders (16, 1, 2) is an
integer. -/
inductive Json where
  | null : Json
  | bool (b : Bool) : Json
  | num (n : Int) : Json
  | str (s : String) : Json
  | arr (xs : List Json) : Json
  | obj (kvs : List (String × Json)) : Json

/-- JS indexing item[i]: out-of-range access yields undefined, modelled none. -/
def jsGet (xs : List Json) (i : Nat) : Option Json := xs.get? i

/-- JS strict equality of a possibly-undefined value against a string literal. -/
def isStrEq (j : Option Json) (s : String) : Bool :=
  match j with
  | some (Json.str t) => t = s
  | _ => false

/-- JS Array.includes with a numeric argument (strict equality inside). -/
def includesNum (xs : List Json) (n : Int) : Bool :=
  xs.any fun j =>
    match j with
    | Json.num m => m = n
    | _ => false

/-! ### Response framing (parseResponse, src/client/api.ts lines 175-219)

The raw body has its 4-character anti-XSSI marker stripped and is split on
newlines before the loop below runs; a line is then only observed through
three JS primitives, which we record per line: whether line.trim() is empty,
the result of parseInt(line, 10) (none = NaN), and the result of
JSON.parse on the line (none = exception). -/

structure RawLine where
  blank : Bool
  asInt : Option Int
  parsed : Option Json

/-- Loop body of parseResponse, written as a scan whose boolean state
records that the previous line was a byte count so the current line is its
payload.  A line parsing as an integer announces that the following line is
a JSON chunk (the count itself is ignored); otherwise the line is parsed
directly; lines that fail to parse are skipped. -/
def parseLinesAux : List RawLine → Bool → List Json
  | [], _ => []
  | l :: rest, true =>
    match l.parsed with
    | some j => j :: parseLinesAux rest false
    | none => parseLinesAux rest false
  | l :: rest, false =>
    if l.blank then parseLinesAux rest false
    else if l.asInt.isSome then parseLinesAux rest true
    else
      match l.parsed with
      | some j => j :: parseLinesAux rest false
      | none => parseLinesAux rest false

/-- Chunk sequence decoded by parseResponse. -/
def parseResponseLines (lines : List RawLine) : List Json :=
  parseLinesAux lines false

/-! ### extractRpcResult (src/client/api.ts lines 224-256) -/

/-- The only condition the decoder raises. -/
inductive AuthErr where
  | rpcError16 : AuthErr
deriving DecidableEq

/-- Guard deciding whether a tuple is a well-formed match for the requested
call id: an array of at least 3 positions whose position 0 is the literal
marker and position 1 the call id. -/
def goodTuple (rpcId : String) (item : Json) : Option (List Json) :=
  match item with
  | Json.arr it =>
    if it.length < 3 then none
    else if isStrEq (jsGet it 0) "wrb.fr" && isStrEq (jsGet it 1) rpcId then some it
    else none
  | _ => none

/-- First matching tuple inside one chunk. -/
def findTuple (rpcId : String) : List Json → Option (List Json)
  | [] => none
  | item :: rest =>
    match goodTuple rpcId item with
    | some it => some it
    | none => findTuple rpcId rest

/-- First matching tuple across chunks, in chunk-then-item order; non-array
chunks are skipped. -/
def scanChunks (rpcId : String) : List Json → Option (List Json)
  | [] => none
  | c :: rest =>
    match c with
    | Json.arr items =>
      match findTuple rpcId items with
      | some it => some it
      | none => scanChunks rpcId rest
    | _ => scanChunks rpcId rest

/-- Auth-error signature checked by extractRpcResult on the matched tuple:
item.length > 6, item[6] === "generic", item[5] an array containing 16. -/
def tupleAuthErr (it : List Json) : Bool :=
  decide (6 < it.length) && isStrEq (jsGet it 6) "generic" &&
    (match jsGet it 5 with
     | some (Json.arr xs) => includesNum xs 16
     | _ => false)

/-- extractRpcResult: find the first tuple answering rpcId; raise on the
sentinel signature; otherwise position 2 is a string to re-parse (returned
raw when JSON.parse fails) or a non-string value returned as is.  The
`parse` argument stands for JSON.parse applied to the payload string. -/
def extractRpcResult (parse : String → Option Json) (chunks : List Json)
    (rpcId : String) : Except AuthErr (Option Json) :=
  match scanChunks rpcId chunks with
  | none => Except.ok none
  | some it =>
    if tupleAuthErr it then Except.error AuthErr.rpcError16
    else
      match jsGet it 2 with
      | some (Json.str s) =>
        match parse s with
        | some j => Except.ok (some j)
        | none => Except.ok (some (Json.str s))
      | some j => Except.ok (some j)
      | none => Except.ok none

/-- Full decode of a response body for a call id. -/
def decodeRpc (parse : String → Option Json) (lines : List RawLine)
    (rpcId : String) : Except AuthErr (Option Json) :=
  extractRpcResult parse (parseResponseLines lines) rpcId

/-! ### Streaming answer decoder
(extractAnswerFromChunk and decodeQueryResponse, src/client/api.ts lines
740-854 and 1610-1715; the two copies in the file have identical logic) -/

/-- Errors thrown by the streaming chunk decoder; the source stores message
strings, of which only the kind matters downstream. -/
inductive ChunkErr where
  | auth16 : ChunkErr
  | generic : ChunkErr
deriving DecidableEq

/-- Result triple of extractAnswerFromChunk. -/
structure ChunkResult where
  text : Option String
  isAnswer : Bool
  error : Option ChunkErr
deriving DecidableEq

/-- Trailing type tag: firstElem[4] must be an array whose last element is
the number 1 for the fragment to count as a final answer. -/
def fragIsAnswer (fe : List Json) : Bool :=
  if 4 < fe.length then
    match jsGet fe 4 with
    | some (Json.arr ti) =>
      match jsGet ti (ti.length - 1) with
      | some (Json.num k) => k = 1
      | _ => false
    | _ => false
  else false

/-- Generic-error signature tested by the streaming decoder on an item:
an array of ≥ 3 positions with marker "wrb.fr", more than 6 positions and
the literal "generic" at position 6. -/
def itemErrSig (item : Json) : Bool :=
  match item with
  | Json.arr it =>
    decide (3 ≤ it.length) && isStrEq (jsGet it 0) "wrb.fr" &&
      decide (6 < it.length) && isStrEq (jsGet it 6) "generic"
  | _ => false

/-- Body of the item loop of extractAnswerFromChunk: none means the loop
continues with the next item.  Items that are not ≥3-element "wrb.fr"
arrays are skipped; the generic-error signature is raised (auth16 when
position 5 contains the sentinel); otherwise position 2 must be a string
whose JSON.parse (the oracle) yields [[text, _, _, _, typeTag], ...]; a
text fragment is returned only when longer than 20 characters, else the
scan continues. -/
def handleAnswerItem (parse : String → Option Json) (item : Json) :
    Option ChunkResult :=
  match item with
  | Json.arr it =>
    if it.length < 3 then none
    else if !(isStrEq (jsGet it 0) "wrb.fr") then none
    else if 6 < it.length && isStrEq (jsGet it 6) "generic" then
      if (match jsGet it 5 with
          | some (Json.arr xs) => includesNum xs 16
          | _ => false) then some ⟨none, false, some ChunkErr.auth16⟩
      else some ⟨none, false, some ChunkErr.generic⟩
    else
      match jsGet it 2 with
      | some (Json.str inner) =>
        match parse inner with
        | some (Json.arr innerXs) =>
          if innerXs.length = 0 then none
          else
            match jsGet innerXs 0 with
            | some (Json.arr fe) =>
              if fe.length = 0 then none
              else
                match jsGet fe 0 with
                | some (Json.str answerText) =>
                  if 20 < answerText.length then
                    some ⟨some answerText, fragIsAnswer fe, none⟩
                  else none
                | _ => none
            | some (Json.str firstElem) =>
              if 20 < firstElem.length then some ⟨some firstElem, false, none⟩
              else none
            | _ => none
        | _ => none
      | _ => none
  | _ => none

/-- Item loop of extractAnswerFromChunk: first item that yields a result
(fragment or error) wins, the rest are not examined. -/
def scanAnswerItems (parse : String → Option Json) : List Json → ChunkResult
  | [] => ⟨none, false, none⟩
  | item :: rest =>
    match handleAnswerItem parse item with
    | some r => r
    | none => scanAnswerItems parse rest

/-- extractAnswerFromChunk on the JSON.parse result of one line (none when
the line failed to parse; non-array or empty data yields no fragment). -/
def extractAnswerFromChunk (parse : String → Option Json)
    (parsedLine : Option Json) : ChunkResult :=
  match parsedLine with
  | some (Json.arr items) =>
    if items.length = 0 then ⟨none, false, none⟩
    else scanAnswerItems parse items
  | _ => ⟨none, false, none⟩

/-- Byte-count test of the streaming loop: !isNaN(parseInt(line)) and the
count is positive. -/
def isPositiveCount (l : RawLine) : Bool :=
  match l.asInt with
  | some n => 0 < n
  | none => false

/-- Longest-fragment accumulator update of the streaming loop: an answer
fragment strictly longer than the current longest answer replaces it, a
reasoning fragment strictly longer than the current longest reasoning
replaces that. -/
def applyChunk (la lt : String) (r : ChunkResult) : String × String :=
  match r.text with
  | some t =>
    if r.isAnswer && decide (la.length < t.length) then (t, lt)
    else if !r.isAnswer && decide (lt.length < t.length) then (la, t)
    else (la, lt)
  | none => (la, lt)

/-- Main loop of decodeQueryResponse over the framed lines, threading the
longest answer and longest reasoning fragments; the boolean state records
that the previous line was a positive byte count so the current line is the
chunk to decode; a chunk error aborts the decode. -/
def decodeQueryLines (parse : String → Option Json) :
    List RawLine → Bool → String → String → Except ChunkErr (String × String)
  | [], _, la, lt => Except.ok (la, lt)
  | l :: rest, true, la, lt =>
    match (extractAnswerFromChunk parse l.parsed).error with
    | some e => Except.error e
    | none =>
      decodeQueryLines parse rest false
        (applyChunk la lt (extractAnswerFromChunk parse l.parsed)).1
        (applyChunk la lt (extractAnswerFromChunk parse l.parsed)).2
  | l :: rest, false, la, lt =>
    if l.blank then decodeQueryLines parse rest false la lt
    else if isPositiveCount l then decodeQueryLines parse rest true la lt
    else
      match (extractAnswerFromChunk parse l.parsed).error with
      | some e => Except.error e
      | none =>
        decodeQueryLines parse rest false
          (applyChunk la lt (extractAnswerFromChunk parse l.parsed)).1
          (applyChunk la lt (extractAnswerFromChunk parse l.parsed)).2

/-- decodeQueryResponse: answer = longestAnswer || longestThinking (JS
falsiness of the empty string), conversationId stays the initial null. -/
def decodeQueryResponse (parse : String → Option Json) (lines : List RawLine) :
    Except ChunkErr (String × Option String) :=
  match decodeQueryLines parse lines false "" "" with
  | Except.error e => Except.error e
  | Except.ok (la, lt) => Except.ok ((if la ≠ "" then la else lt), none)

/-- A chunk contains a tuple matching the requested call id. -/
def chunkHasMatch (rpcId : String) (c : Json) : Bool :=
  match c with
  | Json.arr items => (findTuple rpcId items).isSome
  | _ => false

/-- Concrete response for the C1 counterexample: a matching tuple whose
position 5 carries the sentinel 16 but which has only 6 positions, so the
trailing "generic" marker of the error signature is absent. -/
def authCexChunks : List Json :=
  [Json.arr [Json.arr [Json.str "wrb.fr", Json.str "rpc1", Json.str "payload",
    Json.null, Json.null, Json.arr [Json.num 16]]]]

/-! ### Spec-side description of the streaming decoder (claim C4) -/

/-- Sequence of chunk inputs handed to extractAnswerFromChunk by the
streaming loop, in order, under the same byte-count framing. -/
def examinedChunks : List RawLine → Bool → List (Option Json)
  | [], _ => []
  | l :: rest, true => l.parsed :: examinedChunks rest false
  | l :: rest, false =>
    if l.blank then examinedChunks rest false
    else if isPositiveCount l then examinedChunks rest true
    else l.parsed :: examinedChunks rest false

/-- All accepted fragments of a streamed response with their category
(true = answer). -/
def chunkFragments (parse : String → Option Json) (lines : List RawLine)
    (st : Bool) : List (String × Bool) :=
  (examinedChunks lines st).filterMap fun c =>
    (extractAnswerFromChunk parse c).text.map
      fun t => (t, (extractAnswerFromChunk parse c).isAnswer)

/-- First fragment of maximal length in a list (empty when none). -/
def longestOf (ts : List String) : String :=
  ts.foldl (fun acc t => if acc.length < t.length then t else acc) ""

/-- Fold form of the two longest-fragment accumulators. -/
def accFold : List (String × Bool) → String × String → String × String
  | [], p => p
  | (t, b) :: fs, p => accFold fs (applyChunk p.1 p.2 ⟨some t, b, none⟩)

/-- Statement of the claim in its own words: scan all chunks, keep the
longest fragment per category, return the longest answer fragment when any
answer fragment was seen, otherwise the longest reasoning fragment,
otherwise the empty result. -/
def specLongestPolicy (parse : String → Option Json)
    (lines : List RawLine) : String :=
  let fs := chunkFragments parse lines false
  let answers := (fs.filter fun p => p.2).map Prod.fst
  let reasonings := (fs.filter fun p => !p.2).map Prod.fst
  if answers ≠ [] then longestOf answers else longestOf reasonings

/-! ### Conversation identifiers (claim C10, QueryService.query) -/

/-- Returned conversation id of QueryService.query: the JS expression
newConversationId || conversationId || crypto.randomUUID(), with the empty
string falsy. -/
def fallbackId (callerId : Option String) (uuid : String) : String :=
  match callerId with
  | some c => if c = "" then uuid else c
  | none => uuid

def queryReturnedId (newId : Option String) (callerId : Option String)
    (uuid : String) : String :=
  match newId with
  | some s => if s = "" then fallbackId callerId uuid else s
  | none => fallbackId callerId uuid

/-! ### Concrete streamed response used as the C4 witness scenario -/

/-- Inner payload [[text, null, null, null, [tag]]] of a streamed chunk. -/
def frag (t : String) (tag : Int) : Json :=
  Json.arr [Json.arr [Json.str t, Json.null, Json.null, Json.null,
    Json.arr [Json.num tag]]]

/-- Streamed item whose position 2 is the inner-JSON key. -/
def qItem (key : String) : Json :=
  Json.arr [Json.str "wrb.fr", Json.str "id", Json.str key]

/-- Oracle for the inner JSON.parse of the witness scenario: a 15-character
answer (rejected, too short), a 40-character reasoning fragment, and a
25-character answer fragment. -/
def qParse : String → Option Json := fun s =>
  if s = "c1" then some (frag "abcdefghijklmno" 1)
  else if s = "c2" then
    some (frag "reasoning-reasoning-reasoning-reasoning." 2)
  else if s = "c3" then some (frag "answer-answer-answer-25ch" 1)
  else none

def qLines : List RawLine :=
  [⟨false, none, some (Json.arr [qItem "c1"])⟩,
   ⟨false, none, some (Json.arr [qItem "c2"])⟩,
   ⟨false, none, some (Json.arr [qItem "c3"])⟩]

/-! ### Encoding layer (src/client/encoding.ts; claims C5, C7, C8)

The JS built-ins used by the source (encodeURIComponent, JSON.stringify on
strings and simple values, the regex replaces of jsonStringifyAscii and
strictEncode) are embedded below at the Unicode-scalar level; the UTF-16
code units a JS string exposes are recovered by toUtf16 where the regexes
operate on them. -/

/-- Uppercase hexadecimal digit (defined for n < 16). -/
def hexUpperChar (n : Nat) : Char :=
  Char.ofNat (if n < 10 then 48 + n else 55 + n)

/-- Lowercase hexadecimal digit (defined for n < 16). -/
def hexLowerChar (n : Nat) : Char :=
  Char.ofNat (if n < 10 then 48 + n else 87 + n)

/-- UTF-8 bytes of a Unicode scalar value. -/
def utf8Bytes (n : Nat) : List Nat :=
  if n < 0x80 then [n]
  else if n < 0x800 then [0xC0 + n / 0x40, 0x80 + n % 0x40]
  else if n < 0x10000 then
    [0xE0 + n / 0x1000, 0x80 + (n / 0x40) % 0x40, 0x80 + n % 0x40]
  else
    [0xF0 + n / 0x40000, 0x80 + (n / 0x1000) % 0x40,
     0x80 + (n / 0x40) % 0x40, 0x80 + n % 0x40]

/-- Percent-encoding of one byte, uppercase as encodeURIComponent emits. -/
def percentByte (b : Nat) : List Char :=
  ['%', hexUpperChar (b / 16), hexUpperChar (b % 16)]

/-- Characters encodeURIComponent leaves unescaped. -/
def uriUnreservedChar (c : Char) : Bool :=
  c.isAlphanum || c ∈ ['-', '_', '.', '!', '~', '*', Char.ofNat 39, '(', ')']

/-- Action of encodeURIComponent on one scalar. -/
def encodeURIComponentChar (c : Char) : List Char :=
  if uriUnreservedChar c then [c]
  else ((utf8Bytes c.toNat).map percentByte).flatten

/-- The JS built-in encodeURIComponent on a well-formed string. -/
def encodeURIComponent (s : String) : String :=
  ⟨(s.data.map encodeURIComponentChar).flatten⟩

/-- JS c.charCodeAt(0).toString(16).toUpperCase() for codes below 256 (the
replace callback of strictEncode only ever receives the five reserved
characters, whose codes are 0x21-0x2A). -/
def jsHexUpper (n : Nat) : List Char :=
  if n < 16 then [hexUpperChar n]
  else [hexUpperChar (n / 16 % 16), hexUpperChar (n % 16)]

/-- Replace callback of strictEncode, applied per character of the
encodeURIComponent output by the global regex. -/
def strictReplaceChar (c : Char) : List Char :=
  if c ∈ ['!', Char.ofNat 39, '(', ')', '*'] then '%' :: jsHexUpper c.toNat
  else [c]

/-- strictEncode: encodeURIComponent followed by escaping the five
characters the regex [!'()*] matches. -/
def strictEncode (s : String) : String :=
  ⟨((encodeURIComponent s).data.map strictReplaceChar).flatten⟩

/-- Combined per-character action of strictEncode, for stating the claim. -/
def strictEncodeChar (c : Char) : String :=
  ⟨((encodeURIComponentChar c).map strictReplaceChar).flatten⟩

/-- Lowercase 4-digit hexadecimal of a UTF-16 code unit, as produced by
('0000' + u.toString(16)).slice(-4). -/
def hex4Lower (n : Nat) : List Char :=
  [hexLowerChar (n / 4096 % 16), hexLowerChar (n / 256 % 16),
   hexLowerChar (n / 16 % 16), hexLowerChar (n % 16)]

/-- Escaping JSON.stringify applies inside a quoted string. -/
def quoteJsonChar (c : Char) : List Char :=
  if c = '"' then ['\\', '"']
  else if c = '\\' then ['\\', '\\']
  else if c = Char.ofNat 8 then ['\\', 'b']
  else if c = Char.ofNat 9 then ['\\', 't']
  else if c = Char.ofNat 10 then ['\\', 'n']
  else if c = Char.ofNat 12 then ['\\', 'f']
  else if c = Char.ofNat 13 then ['\\', 'r']
  else if c.toNat < 0x20 then '\\' :: 'u' :: hex4Lower c.toNat
  else [c]

/-- JSON.stringify of a string value: quoted and escaped. -/
def jsonQuote (s : String) : List Char :=
  '"' :: (s.data.map quoteJsonChar).flatten ++ ['"']

/-- UTF-16 code units of a scalar. -/
def toUtf16 (c : Char) : List Nat :=
  if c.toNat < 0x10000 then [c.toNat]
  else [0xD800 + (c.toNat - 0x10000) / 0x400, 0xDC00 + (c.toNat - 0x10000) % 0x400]

/-- Action of the regex replace of jsonStringifyAscii on one scalar: every
UTF-16 code unit in the range 0x7F-0xFFFF becomes a lowercase 4-digit
unicode escape (an astral scalar is two such units, hence two escapes). -/
def asciiEscapeChar (c : Char) : List Char :=
  if c.toNat < 0x7F then [c]
  else ((toUtf16 c).map fun u => '\\' :: 'u' :: hex4Lower u).flatten

/-- The .replace of jsonStringifyAscii over a whole string. -/
def asciiReplace (s : String) : String :=
  ⟨(s.data.map asciiEscapeChar).flatten⟩

mutual
/-- JSON.stringify of a decoded value.  Numbers are restricted to integers
(printed in decimal, as JS prints integral numbers); object members keep
insertion order as JS does. -/
def jsonStringify : Json → String
  | Json.null => "null"
  | Json.bool true => "true"
  | Json.bool false => "false"
  | Json.num n => toString n
  | Json.str s => ⟨jsonQuote s⟩
  | Json.arr xs => "[" ++ jsonStringifyElems xs ++ "]"
  | Json.obj kvs => "\x7b" ++ jsonStringifyMembers kvs ++ "\x7d"

def jsonStringifyElems : List Json → String
  | [] => ""
  | [x] => jsonStringify x
  | x :: xs => jsonStringify x ++ "," ++ jsonStringifyElems xs

def jsonStringifyMembers : List (String × Json) → String
  | [] => ""
  | [(k, v)] => ⟨jsonQuote k⟩ ++ ":" ++ jsonStringify v
  | (k, v) :: kvs =>
    ⟨jsonQuote k⟩ ++ ":" ++ jsonStringify v ++ "," ++ jsonStringifyMembers kvs
end

/-- jsonStringifyAscii: JSON.stringify then the \uXXXX regex replace. -/
def jsonStringifyAscii (j : Json) : String :=
  asciiReplace (jsonStringify j)

/-- buildRpcBody (src/client/encoding.ts lines 33-44): ASCII-escaped JSON,
the [[[rpcId, paramsJson, null, "generic"]]] wrapper, strict encoding, an
at field for a truthy token, parts joined by ampersands plus a trailing
one. -/
def buildRpcBody (rpcId : String) (params : Json)
    (csrfToken : Option String) : String :=
  let paramsJson := jsonStringifyAscii params
  let fReqJson := jsonStringifyAscii (Json.arr [Json.arr [Json.arr
    [Json.str rpcId, Json.str paramsJson, Json.null, Json.str "generic"]]])
  let parts :=
    match csrfToken with
    | some t =>
      if t = "" then ["f.req=" ++ strictEncode fReqJson]
      else ["f.req=" ++ strictEncode fReqJson, "at=" ++ strictEncode t]
    | none => ["f.req=" ++ strictEncode fReqJson]
  String.intercalate "&" parts ++ "&"

/-- NotebookLMClient.buildRequestBody (src/client/api.ts lines 140-151):
same wrapper but plain JSON.stringify and plain encodeURIComponent. -/
def buildRequestBody (rpcId : String) (params : Json)
    (csrfToken : String) : String :=
  let paramsJson := jsonStringify params
  let fReqJson := jsonStringify (Json.arr [Json.arr [Json.arr
    [Json.str rpcId, Json.str paramsJson, Json.null, Json.str "generic"]]])
  let parts :=
    if csrfToken = "" then ["f.req=" ++ encodeURIComponent fReqJson]
    else ["f.req=" ++ encodeURIComponent fReqJson,
          "at=" ++ encodeURIComponent csrfToken]
  String.intercalate "&" parts ++ "&"

/-- JS truthiness of the optional token: present means a non-empty string. -/
def tokenPresent : Option String → Bool
  | some t => t ≠ ""
  | none => false

/-- Statement of the claim in its own words: the body equals the form field
f.req holding the strictly percent-encoded ASCII-escaped serialization of
the wrapper [[[callId, paramsJson, null, "generic"]]] (paramsJson itself
the ASCII-escaped serialization of the parameters), followed by a second
field at holding the strictly percent-encoded token when one is present,
the whole body terminated by a trailing ampersand. -/
def specRpcBody (rpcId : String) (params : Json)
    (csrfToken : Option String) : String :=
  let paramsJson := jsonStringifyAscii params
  let wrapped := jsonStringifyAscii (Json.arr [Json.arr [Json.arr
    [Json.str rpcId, Json.str paramsJson, Json.null, Json.str "generic"]]])
  "f.req=" ++ strictEncode wrapped ++
    (if tokenPresent csrfToken then "&at=" ++ strictEncode (csrfToken.getD "")
     else "") ++ "&"

/-! ### Standard JSON string-literal parser (spec side, claim C8)

Models the string grammar of RFC 8259 as any standard JSON parser reads it:
code units from raw characters and escapes, surrogate pairs recombined. -/

/-- Hexadecimal digit value, accepting both cases. -/
def hexVal (c : Char) : Option Nat :=
  if 48 ≤ c.toNat ∧ c.toNat ≤ 57 then some (c.toNat - 48)
  else if 97 ≤ c.toNat ∧ c.toNat ≤ 102 then some (c.toNat - 87)
  else if 65 ≤ c.toNat ∧ c.toNat ≤ 70 then some (c.toNat - 55)
  else none

/-- Single-character escapes of the JSON grammar. -/
def escMap (c : Char) : Option Nat :=
  if c = '"' then some 34
  else if c = '\\' then some 92
  else if c = '/' then some 47
  else if c = 'b' then some 8
  else if c = 'f' then some 12
  else if c = 'n' then some 10
  else if c = 'r' then some 13
  else if c = 't' then some 9
  else none

/-- Reads string-literal content up to the closing quote, producing UTF-16
code units and the remaining input. -/
def parseStrUnits : List Char → Option (List Nat × List Char)
  | [] => none
  | c :: cs =>
    if c = '"' then some ([], cs)
    else if c = '\\' then
      match cs with
      | [] => none
      | e :: cs2 =>
        if e = 'u' then
          match cs2 with
          | a :: b :: c3 :: d :: cs3 =>
            match hexVal a, hexVal b, hexVal c3, hexVal d with
            | some va, some vb, some vc, some vd =>
              match parseStrUnits cs3 with
              | some (us, r) =>
                some ((va * 4096 + vb * 256 + vc * 16 + vd) :: us, r)
              | none => none
            | _, _, _, _ => none
          | _ => none
        else
          match escMap e with
          | some u =>
            match parseStrUnits cs2 with
            | some (us, r) => some (u :: us, r)
            | none => none
          | none => none
    else if c.toNat < 0x20 then none
    else
      match parseStrUnits cs with
      | some (us, r) => some (toUtf16 c ++ us, r)
      | none => none

/-- Recombines UTF-16 code units into scalars; a lone surrogate fails. -/
def combineUnits : List Nat → Option (List Char)
  | [] => some []
  | u :: us =>
    if 0xD800 ≤ u ∧ u ≤ 0xDBFF then
      match us with
      | lo :: us2 =>
        if 0xDC00 ≤ lo ∧ lo ≤ 0xDFFF then
          match combineUnits us2 with
          | some cs =>
            some (Char.ofNat (0x10000 + (u - 0xD800) * 0x400 + (lo - 0xDC00)) :: cs)
          | none => none
        else none
      | [] => none
    else if 0xDC00 ≤ u ∧ u ≤ 0xDFFF then none
    else
      match combineUnits us with
      | some cs => some (Char.ofNat u :: cs)
      | none => none

/-- Standard JSON parse of a complete string literal. -/
def jsonParseStringLit (s : String) : Option String :=
  match s.data with
  | c :: cs =>
    if c = '"' then
      match parseStrUnits cs with
      | some (us, []) =>
        match combineUnits us with
        | some cs2 => some ⟨cs2⟩
        | none => none
      | _ => none
    else none
  | [] => none

/-- Per-character encoding of jsonStringifyAscii inside the quotes: the
JSON.stringify escape, whose output characters are then individually
subjected to the \uXXXX regex replace. -/
def encodedChar (c : Char) : List Char :=
  ((quoteJsonChar c).map asciiEscapeChar).flatten

/-! ### Credential manager (src/auth/manager.ts, src/auth/tokens.ts;
claims C2 and C9)

Date.now() and the landing-page fetch are environment inputs; the model
carries the current time both in milliseconds (CSRF age checks) and in
seconds (cookie age checks) to avoid modelling JS float division. -/

structure AuthTokens where
  cookies : List (String × String)
  csrfToken : String
  sessionId : String
  extractedAt : Int
deriving DecidableEq

/-- The five session-identity cookie names (src/types.ts). -/
def REQUIRED_COOKIES : List String := ["SID", "HSID", "SSID", "APISID", "SAPISID"]

/-- JS `key in cookies` on the cookie record. -/
def hasCookie (cookies : List (String × String)) (k : String) : Bool :=
  cookies.any fun p => p.1 = k

/-- validateCookies: every required name present. -/
def validateCookies (cookies : List (String × String)) : Bool :=
  REQUIRED_COOKIES.all (hasCookie cookies)

/-- isTokenExpired with the default 168-hour maximum age. -/
def isTokenExpired (nowSec : Int) (tokens : AuthTokens) : Bool :=
  decide (nowSec - tokens.extractedAt > 168 * 3600)

inductive AuthState where
  | unauthenticated : AuthState
  | authenticated (tokens : AuthTokens) (csrfRefreshedAt : Int) : AuthState
  | expired (tokens : AuthTokens) : AuthState
deriving DecidableEq

def getTokens : AuthState → Option AuthTokens
  | AuthState.authenticated t _ => some t
  | AuthState.expired t => some t
  | AuthState.unauthenticated => none

def isAuthenticatedB : AuthState → Bool
  | AuthState.authenticated _ _ => true
  | _ => false

/-- CSRF lifetime (4 h) and proactive-refresh buffer (30 min), in ms. -/
def CSRF_TTL_MS : Int := 4 * 60 * 60 * 1000

def PROACTIVE_REFRESH_BUFFER_MS : Int := 30 * 60 * 1000

/-- needsCsrfRefresh: token age beyond the lifetime minus the buffer. -/
def needsCsrfRefresh (nowMs : Int) : AuthState → Bool
  | AuthState.authenticated _ r =>
    decide (nowMs - r > CSRF_TTL_MS - PROACTIVE_REFRESH_BUFFER_MS)
  | _ => false

/-- Outcome of the landing-page fetch inside refreshCsrf: a thrown network
error, a non-ok status, or a page whose HTML scan yields the optional CSRF
token and session id. -/
inductive FetchRes where
  | err : FetchRes
  | notOk : FetchRes
  | ok (csrf : Option String) (sid : Option String) : FetchRes
deriving DecidableEq

/-- Environment of one manager operation: the clock, the persisted token
file, the outcomes of up to two landing-page fetches, and the CDP
(browser-automation) configuration and outcome. -/
structure MgrEnv where
  nowMs : Int
  nowSec : Int
  disk : Option AuthTokens
  csrfFetch : FetchRes
  csrfFetch2 : FetchRes
  cdpEnabled : Bool
  cdpResult : Option AuthTokens
deriving DecidableEq

/-- refreshCsrf: no tokens means an immediate false without a fetch; else
one fetch; redirect/non-ok or a missing CSRF marker fail without changing
state; success adopts the new token and session id with a fresh
csrfRefreshedAt.  Returns (result, state, network calls). -/
def refreshCsrfRun (f : FetchRes) (nowMs : Int) (st : AuthState) :
    Bool × AuthState × Nat :=
  match getTokens st with
  | none => (false, st, 0)
  | some t =>
    match f with
    | FetchRes.err => (false, st, 1)
    | FetchRes.notOk => (false, st, 1)
    | FetchRes.ok csrf sid =>
      match csrf with
      | none => (false, st, 1)
      | some c =>
        (true,
         AuthState.authenticated
           { t with csrfToken := c, sessionId := sid.getD t.sessionId } nowMs,
         1)

/-- doRefresh: layer 1 CSRF refresh; layer 2 disk reload (validated and not
expired) plus a best-effort second CSRF refresh; layer 3 CDP when enabled;
layer 4 transition to expired/unauthenticated.  Returns (result, state,
network calls, browser-automation invocations). -/
def doRefreshRun (env : MgrEnv) (st : AuthState) :
    Bool × AuthState × Nat × Nat :=
  match refreshCsrfRun env.csrfFetch env.nowMs st with
  | (true, st1, n1) => (true, st1, n1, 0)
  | (false, st1, n1) =>
    match env.disk with
    | some dt =>
      if validateCookies dt.cookies && !isTokenExpired env.nowSec dt then
        match refreshCsrfRun env.csrfFetch2 env.nowMs
            (AuthState.authenticated dt (dt.extractedAt * 1000)) with
        | (_, st3, n2) => (true, st3, n1 + n2, 0)
      else
        doRefreshLayers34 env st1 n1
    | none => doRefreshLayers34 env st1 n1
where
  doRefreshLayers34 (env : MgrEnv) (st1 : AuthState) (n1 : Nat) :
      Bool × AuthState × Nat × Nat :=
    if env.cdpEnabled then
      match env.cdpResult with
      | some ct => (true, AuthState.authenticated ct env.nowMs, n1 + 1, 1)
      | none =>
        match getTokens st1 with
        | some t => (false, AuthState.expired t, n1 + 1, 1)
        | none => (false, AuthState.unauthenticated, n1 + 1, 1)
    else
      match getTokens st1 with
      | some t => (false, AuthState.expired t, n1, 0)
      | none => (false, AuthState.unauthenticated, n1, 0)

/-- initialize: load the persisted tokens; absent or invalid cookies leave
the manager unauthenticated; expired tokens move to expired and trigger a
full refresh; otherwise adopt them. -/
def initializeRun (env : MgrEnv) : Bool × AuthState × Nat × Nat :=
  match env.disk with
  | none => (false, AuthState.unauthenticated, 0, 0)
  | some tokens =>
    if !validateCookies tokens.cookies then
      (false, AuthState.unauthenticated, 0, 0)
    else if isTokenExpired env.nowSec tokens then
      doRefreshRun env (AuthState.expired tokens)
    else
      (true,
       AuthState.authenticated tokens (tokens.extractedAt * 1000), 0, 0)

/-- ensureValid: unauthenticated tries initialize then a full refresh;
expired goes straight to the full refresh; authenticated performs the
proactive CSRF refresh only when needed and reports isAuthenticated(). -/
def ensureValidRun (env : MgrEnv) (st : AuthState) :
    Bool × AuthState × Nat × Nat :=
  match st with
  | AuthState.unauthenticated =>
    match initializeRun env with
    | (true, st1, n, k) => (true, st1, n, k)
    | (false, st1, n, k) =>
      match doRefreshRun env st1 with
      | (ok2, st2, n2, k2) => (ok2, st2, n + n2, k + k2)
  | AuthState.expired t => doRefreshRun env (AuthState.expired t)
  | AuthState.authenticated t r =>
    if needsCsrfRefresh env.nowMs (AuthState.authenticated t r) then
      match refreshCsrfRun env.csrfFetch env.nowMs
          (AuthState.authenticated t r) with
      | (_, st1, n) => (isAuthenticatedB st1, st1, n, 0)
    else (true, AuthState.authenticated t r, 0, 0)

/-! ### Single-flight refresh (AuthManager.refresh, claim C2)

Cooperative-concurrency model of the promise-caching mutex: refresh()
inspects and sets refreshMutex synchronously before its first await, so a
caller either adopts the promise already in flight or launches a new
execution and publishes its promise; the finally-clearing of the mutex
happens only after the execution resolves, which for simultaneous callers
is after all of them have been assigned a promise. -/

structure SFState where
  mutex : Option Nat
  launches : Nat
  nextId : Nat
deriving DecidableEq

def sfInit : SFState := ⟨none, 0, 0⟩

/-- One call to refresh(): adopt the in-flight promise, or launch. -/
def callRefresh (s : SFState) : Nat × SFState :=
  match s.mutex with
  | some p => (p, s)
  | none => (s.nextId, ⟨some s.nextId, s.launches + 1, s.nextId + 1⟩)

/-- N simultaneous calls to refresh(), no completion in between. -/
def runCalls : Nat → SFState → List Nat × SFState
  | 0, s => ([], s)
  | n + 1, s =>
    match callRefresh s with
    | (p, s1) =>
      match runCalls n s1 with
      | (ps, s2) => (p :: ps, s2)

/-! ### Retry transport (fetchWithRecovery, src/client/recovery.ts;
claim C3) -/

/-- What one attempt observes: the fetch threw (with an auth-classified
message or not), or a response arrived with a status and, when the status
is ok, a parse outcome. -/
inductive ParseOut where
  | ok : ParseOut
  | threw (authMsg : Bool) : ParseOut
deriving DecidableEq

inductive AttemptOut where
  | fetchThrow (authMsg : Bool) : AttemptOut
  | response (status : Nat) (parse : ParseOut) : AttemptOut
deriving DecidableEq

/-- Response.ok of the fetch API. -/
def isOkStatus (s : Nat) : Bool := decide (200 ≤ s) && decide (s < 300)

/-- isAuthError: HTTP 401/403. -/
def isAuthErrorStatus (s : Nat) : Bool := decide (s = 401) || decide (s = 403)

/-- The default retryOn list. -/
def isRetryableStatus (s : Nat) : Bool :=
  decide (s = 429) || decide (s = 500) || decide (s = 502) ||
    decide (s = 503) || decide (s = 504)

/-- Terminal results of fetchWithRecovery: a value, a structured HTTP
error, the structured AUTH_EXPIRED built after a failed refresh on an
auth-classified thrown error, or NETWORK_ERROR after exhaustion. -/
inductive RResult where
  | success : RResult
  | httpFail (s : Nat) : RResult
  | authFail : RResult
  | networkFail : RResult
deriving DecidableEq

inductive REv where
  | attemptEv : REv
  | refreshEv : REv
  | sleepEv : REv
deriving DecidableEq

/-- Loop of fetchWithRecovery, by remaining fuel (maxRetries + 1 - attempt);
the trace records attempts, invocations of the auth-refresh callback, and
backoff sleeps, in order.  refreshOk is the (single) callback outcome. -/
def runRecovery (att : Nat → AttemptOut) (refreshOk : Bool)
    (maxRetries : Nat) : Nat → Nat → Bool → RResult × List REv
  | 0, _, _ => (RResult.networkFail, [])
  | fuel + 1, attempt, authRetried =>
    let rest : RResult × List REv :=
      match att attempt with
      | AttemptOut.fetchThrow authMsg =>
        if authMsg && !authRetried then
          if refreshOk then
            match runRecovery att refreshOk maxRetries fuel (attempt + 1) true with
            | (r, tr) => (r, REv.refreshEv :: tr)
          else (RResult.authFail, [REv.refreshEv])
        else if attempt < maxRetries then
          match runRecovery att refreshOk maxRetries fuel (attempt + 1) authRetried with
          | (r, tr) => (r, REv.sleepEv :: tr)
        else (RResult.networkFail, [])
      | AttemptOut.response s p =>
        if isAuthErrorStatus s && !authRetried then
          if refreshOk then
            match runRecovery att refreshOk maxRetries fuel (attempt + 1) true with
            | (r, tr) => (r, REv.refreshEv :: tr)
          else (RResult.httpFail s, [REv.refreshEv])
        else if !isOkStatus s && isRetryableStatus s then
          if attempt < maxRetries then
            match runRecovery att refreshOk maxRetries fuel (attempt + 1) authRetried with
            | (r, tr) => (r, REv.sleepEv :: tr)
          else (RResult.httpFail s, [])
        else if !isOkStatus s then (RResult.httpFail s, [])
        else
          match p with
          | ParseOut.ok => (RResult.success, [])
          | ParseOut.threw authMsg =>
            if authMsg && !authRetried then
              if refreshOk then
                match runRecovery att refreshOk maxRetries fuel (attempt + 1) true with
                | (r, tr) => (r, REv.refreshEv :: tr)
              else if attempt < maxRetries then
                match runRecovery att refreshOk maxRetries fuel (attempt + 1) true with
                | (r, tr) => (r, REv.refreshEv :: REv.sleepEv :: tr)
              else (RResult.networkFail, [REv.refreshEv])
            else if attempt < maxRetries then
              match runRecovery att refreshOk maxRetries fuel (attempt + 1) authRetried with
              | (r, tr) => (r, REv.sleepEv :: tr)
            else (RResult.networkFail, [])
    (rest.1, REv.attemptEv :: rest.2)

/-- One whole call: attempts 0 through maxRetries, no auth retry spent. -/
def fetchWithRecovery (att : Nat → AttemptOut) (refreshOk : Bool)
    (maxRetries : Nat) : RResult × List REv :=
  runRecovery att refreshOk maxRetries (maxRetries + 1) 0 false

def countRefresh (tr : List REv) : Nat :=
  tr.countP fun e => e = REv.refreshEv

/-- No backoff sleep immediately after a refresh-callback invocation. -/
def noSleepAfterRefresh : List REv → Bool
  | [] => true
  | [_] => true
  | a :: b :: rest =>
    (!(a = REv.refreshEv && b = REv.sleepEv)) && noSleepAfterRefresh (b :: rest)

/-! ### Theorems about the batch-RPC decoder (claims C1 and C6) -/

theorem scanChunks_eq_none (rpcId : String) :
    ∀ chunks : List Json, (∀ c ∈ chunks, chunkHasMatch rpcId c = false) →
      scanChunks rpcId chunks = none := by
  intro chunks
  induction chunks with
  | nil => intro _; rfl
  | cons c rest ih =>
    intro h
    have hc := h c (List.mem_cons_self c rest)
    have hrest : ∀ x ∈ rest, chunkHasMatch rpcId x = false :=
      fun x hx => h x (List.mem_cons_of_mem c hx)
    cases c with
    | arr items =>
      cases hft : findTuple rpcId items with
      | some it => simp [chunkHasMatch, hft] at hc
      | none => simpa [scanChunks, hft] using ih hrest
    | null => simpa [scanChunks] using ih hrest
    | bool b => simpa [scanChunks] using ih hrest
    | num n => simpa [scanChunks] using ih hrest
    | str s => simpa [scanChunks] using ih hrest
    | obj kvs => simpa [scanChunks] using ih hrest

theorem handleAnswerItem_no_sig_no_error (parse : String → Option Json)
    (item : Json) (r : ChunkResult) (hsig : itemErrSig item = false)
    (h : handleAnswerItem parse item = some r) : r.error = none := by
  unfold handleAnswerItem at h
  cases item with
  | arr it =>
    simp only at h
    repeat' split at h
    all_goals try exact Option.noConfusion h
    all_goals try (cases h; rfl)
    all_goals
      rename_i hlen hmark hgen hinc
    all_goals
      rw [Bool.and_eq_true, decide_eq_true_eq] at hgen
    all_goals
      simp at hmark
    all_goals
      simp [itemErrSig, hmark, hgen.1, hgen.2, Nat.le_of_not_lt hlen] at hsig
  | null => exact Option.noConfusion h
  | bool b => exact Option.noConfusion h
  | num n => exact Option.noConfusion h
  | str s => exact Option.noConfusion h
  | obj kvs => exact Option.noConfusion h

theorem scanAnswerItems_no_sig_no_error (parse : String → Option Json) :
    ∀ items : List Json, (∀ it ∈ items, itemErrSig it = false) →
      (scanAnswerItems parse items).error = none := by
  intro items
  induction items with
  | nil => intro _; rfl
  | cons item rest ih =>
    intro h
    have hrest : (scanAnswerItems parse rest).error = none :=
      ih fun x hx => h x (List.mem_cons_of_mem item hx)
    rw [scanAnswerItems]
    cases hh : handleAnswerItem parse item with
    | some r =>
      exact handleAnswerItem_no_sig_no_error parse item r
        (h item (List.mem_cons_self item rest)) hh
    | none => exact hrest

theorem extractRpcResult_error_characterization
    (parse : String → Option Json) (chunks : List Json) (rpcId : String) :
    extractRpcResult parse chunks rpcId = Except.error AuthErr.rpcError16 ↔
      ∃ it, scanChunks rpcId chunks = some it ∧ tupleAuthErr it = true := by
  unfold extractRpcResult
  cases hs : scanChunks rpcId chunks with
  | none => simp
  | some it =>
    dsimp only
    by_cases hta : tupleAuthErr it = true
    · simp [hta]
    · rw [if_neg hta]
      constructor
      · intro h
        cases hj2 : jsGet it 2 with
        | none => rw [hj2] at h; exact Except.noConfusion h
        | some j2 =>
          cases j2 with
          | str s =>
            rw [hj2] at h
            dsimp only at h
            cases hp : parse s with
            | none => rw [hp] at h; exact Except.noConfusion h
            | some j => rw [hp] at h; exact Except.noConfusion h
          | null => rw [hj2] at h; exact Except.noConfusion h
          | bool b => rw [hj2] at h; exact Except.noConfusion h
          | num n => rw [hj2] at h; exact Except.noConfusion h
          | arr xs => rw [hj2] at h; exact Except.noConfusion h
          | obj kvs => rw [hj2] at h; exact Except.noConfusion h
      · rintro ⟨it', hit', hta'⟩
        cases hit'
        exact absurd hta' hta

/-- C1 (corrected).  The claim asserts that the sentinel 16 in the
error-marker slot always raises the authentication-expired condition even
when the trailing marker is absent or not "generic".  On this concrete
response the matching tuple carries 16 at position 5 but has no position 6,
and the decoder returns the ordinary payload instead of raising. -/
theorem sentinel16_without_generic_marker_not_raised :
    extractRpcResult (fun _ => none) authCexChunks "rpc1"
        = Except.ok (some (Json.str "payload"))
    ∧ extractRpcResult (fun _ => none) authCexChunks "rpc1"
        ≠ Except.error AuthErr.rpcError16 := by
  refine ⟨rfl, fun hcontra => ?_⟩
  exact Except.noConfusion
    ((rfl : extractRpcResult (fun _ => none) authCexChunks "rpc1"
        = Except.ok (some (Json.str "payload"))).symm.trans hcontra)

/-- C1 (amended).  Decoding raises the authentication-expired condition
exactly when the first tuple matching the requested call identifier bears
the full error signature: more than 6 positions, the literal "generic" at
position 6 and an array containing 16 at position 5; and the streaming
chunk decoder likewise raises no error when no item bears the
more-than-6-positions "generic" signature. -/
theorem rpc_auth_error_iff_generic_sentinel :
    ∀ (parse : String → Option Json) (chunks : List Json) (rpcId : String),
      (extractRpcResult parse chunks rpcId = Except.error AuthErr.rpcError16 ↔
        ∃ it, scanChunks rpcId chunks = some it ∧ tupleAuthErr it = true)
      ∧ (∀ items : List Json, (∀ it ∈ items, itemErrSig it = false) →
          (scanAnswerItems parse items).error = none) :=
  fun parse chunks rpcId =>
    ⟨extractRpcResult_error_characterization parse chunks rpcId,
     scanAnswerItems_no_sig_no_error parse⟩

/-- Witness for the amended C1 theorem at concrete inputs: the error
characterization on the counterexample response, and the streaming decoder
staying error-free on a 6-position tuple carrying the sentinel. -/
theorem rpc_auth_error_iff_generic_sentinel_witness :
    (¬∃ it, scanChunks "rpc1" authCexChunks = some it ∧ tupleAuthErr it = true) ∧
    (scanAnswerItems (fun _ => none)
      [Json.arr [Json.str "wrb.fr", Json.str "a", Json.str "x",
        Json.null, Json.null, Json.arr [Json.num 16]]]).error = none := by
  constructor
  · intro hex
    exact Except.noConfusion
      ((rfl : extractRpcResult (fun _ => none) authCexChunks "rpc1"
          = Except.ok (some (Json.str "payload"))).symm.trans
        ((rpc_auth_error_iff_generic_sentinel (fun _ => none) authCexChunks
          "rpc1").1.mpr hex))
  · exact (rpc_auth_error_iff_generic_sentinel (fun _ => none) [] "a").2
      _ (by decide)

/-- C6 (confirmed).  Decoding is total with the authentication sentinel as
its only raised condition: unparseable non-blank non-numeric lines are
skipped, short or unrelated tuples are ignored, and when no chunk contains
a matching tuple the decoder answers null; every run either returns a
value-or-null or raises the sentinel condition. -/
theorem rpc_decode_benign :
    ∀ (parse : String → Option Json) (lines : List RawLine) (rpcId : String),
      ((∀ c ∈ parseResponseLines lines, chunkHasMatch rpcId c = false) →
        decodeRpc parse lines rpcId = Except.ok none)
      ∧ (∀ (l : RawLine) (rest : List RawLine), l.blank = false →
          l.asInt = none → l.parsed = none →
          parseResponseLines (l :: rest) = parseResponseLines rest)
      ∧ (∀ (item : Json) (items chunks : List Json),
          goodTuple rpcId item = none →
          extractRpcResult parse (Json.arr (item :: items) :: chunks) rpcId =
            extractRpcResult parse (Json.arr items :: chunks) rpcId)
      ∧ ((∃ v, decodeRpc parse lines rpcId = Except.ok v) ∨
          decodeRpc parse lines rpcId = Except.error AuthErr.rpcError16) := by
  intro parse lines rpcId
  refine ⟨?_, ?_, ?_, ?_⟩
  · intro h
    unfold decodeRpc extractRpcResult
    rw [scanChunks_eq_none rpcId (parseResponseLines lines) h]
  · intro l rest hb hi hp
    simp [parseResponseLines, parseLinesAux, hb, hi, hp]
  · intro item items chunks hgt
    unfold extractRpcResult
    have : scanChunks rpcId (Json.arr (item :: items) :: chunks) =
        scanChunks rpcId (Json.arr items :: chunks) := by
      simp [scanChunks, findTuple, hgt]
    rw [this]
  · cases hd : decodeRpc parse lines rpcId with
    | ok v => exact Or.inl ⟨v, rfl⟩
    | error e => cases e; exact Or.inr rfl

/-- Witness for C6 at a concrete response: one chunk answering an unrelated
call id followed by an unparseable line decodes to null for the requested
id. -/
theorem rpc_decode_benign_witness :
    decodeRpc (fun _ => none)
      [⟨false, none, some (Json.arr [Json.arr
          [Json.str "wrb.fr", Json.str "other", Json.str "x"]])⟩,
       ⟨false, none, none⟩] "mine" = Except.ok none :=
  (rpc_decode_benign (fun _ => none)
    [⟨false, none, some (Json.arr [Json.arr
        [Json.str "wrb.fr", Json.str "other", Json.str "x"]])⟩,
     ⟨false, none, none⟩] "mine").1 (by decide)

/-! ### Theorems about the streaming decoder (claims C4 and C10) -/

theorem accFold_cons (t : String) (b : Bool) (fs : List (String × Bool))
    (p : String × String) :
    accFold ((t, b) :: fs) p = accFold fs (applyChunk p.1 p.2 ⟨some t, b, none⟩) :=
  rfl

theorem handleAnswerItem_text_long (parse : String → Option Json)
    (item : Json) (r : ChunkResult) (t : String)
    (h : handleAnswerItem parse item = some r) (ht : r.text = some t) :
    20 < t.length := by
  unfold handleAnswerItem at h
  cases item with
  | arr it =>
    simp only at h
    repeat' split at h
    all_goals try exact Option.noConfusion h
    all_goals cases h
    all_goals simp only [ChunkResult.text] at ht
    all_goals try exact Option.noConfusion ht
    all_goals cases ht
    all_goals assumption
  | null => exact Option.noConfusion h
  | bool b => exact Option.noConfusion h
  | num n => exact Option.noConfusion h
  | str s => exact Option.noConfusion h
  | obj kvs => exact Option.noConfusion h

theorem extractAnswerFromChunk_text_long (parse : String → Option Json)
    (c : Option Json) (t : String)
    (ht : (extractAnswerFromChunk parse c).text = some t) : 20 < t.length := by
  unfold extractAnswerFromChunk at ht
  cases c with
  | none => exact Option.noConfusion ht
  | some j =>
    cases j with
    | arr items =>
      dsimp only at ht
      by_cases he : items.length = 0
      · rw [if_pos he] at ht; exact Option.noConfusion ht
      · rw [if_neg he] at ht
        clear he
        induction items with
        | nil => exact Option.noConfusion ht
        | cons item rest ih =>
          rw [scanAnswerItems] at ht
          cases hh : handleAnswerItem parse item with
          | some r =>
            rw [hh] at ht
            exact handleAnswerItem_text_long parse item r t hh ht
          | none =>
            rw [hh] at ht
            exact ih ht
    | null => exact Option.noConfusion ht
    | bool b => exact Option.noConfusion ht
    | num n => exact Option.noConfusion ht
    | str s => exact Option.noConfusion ht
    | obj kvs => exact Option.noConfusion ht

theorem decodeQueryLines_fold (parse : String → Option Json) :
    ∀ (lines : List RawLine) (st : Bool) (la lt : String),
      (∀ c ∈ examinedChunks lines st,
        (extractAnswerFromChunk parse c).error = none) →
      decodeQueryLines parse lines st la lt =
        Except.ok (accFold (chunkFragments parse lines st) (la, lt)) := by
  intro lines
  induction lines with
  | nil =>
    intro st la lt _
    cases st <;> rfl
  | cons l rest ih =>
    intro st la lt h
    cases st with
    | true =>
      have hc : (extractAnswerFromChunk parse l.parsed).error = none :=
        h l.parsed (by simp [examinedChunks])
      have hrest : ∀ c ∈ examinedChunks rest false,
          (extractAnswerFromChunk parse c).error = none :=
        fun c hcm => h c (by simp [examinedChunks, hcm])
      rw [decodeQueryLines]
      rw [hc]
      rw [ih false _ _ hrest]
      cases hr : extractAnswerFromChunk parse l.parsed with
      | mk rt ra re =>
        simp only [chunkFragments, examinedChunks, List.filterMap_cons]
        rw [hr]
        cases rt with
        | none => simp [applyChunk, chunkFragments]
        | some t =>
          dsimp only [Option.map]
          rw [accFold_cons]
          simp [applyChunk, chunkFragments]
    | false =>
      by_cases hb : l.blank
      · have hrest : ∀ c ∈ examinedChunks rest false,
            (extractAnswerFromChunk parse c).error = none :=
          fun c hcm => h c (by simp [examinedChunks, hb, hcm])
        rw [decodeQueryLines, if_pos hb, ih false _ _ hrest]
        simp [chunkFragments, examinedChunks, hb]
      · by_cases hpc : isPositiveCount l = true
        · have hrest : ∀ c ∈ examinedChunks rest true,
              (extractAnswerFromChunk parse c).error = none :=
            fun c hcm => h c (by simp [examinedChunks, hb, hpc, hcm])
          rw [decodeQueryLines, if_neg hb, if_pos hpc, ih true _ _ hrest]
          simp [chunkFragments, examinedChunks, hb, hpc]
        · have hc : (extractAnswerFromChunk parse l.parsed).error = none :=
            h l.parsed (by simp [examinedChunks, hb, hpc])
          have hrest : ∀ c ∈ examinedChunks rest false,
              (extractAnswerFromChunk parse c).error = none :=
            fun c hcm => h c (by simp [examinedChunks, hb, hpc, hcm])
          rw [decodeQueryLines, if_neg hb, if_neg hpc]
          rw [hc]
          rw [ih false _ _ hrest]
          cases hr : extractAnswerFromChunk parse l.parsed with
          | mk rt ra re =>
            simp only [chunkFragments, examinedChunks, if_neg hb, if_neg hpc,
              List.filterMap_cons]
            rw [hr]
            cases rt with
            | none => simp [applyChunk, chunkFragments]
            | some t =>
              dsimp only [Option.map]
              rw [accFold_cons]
              simp [applyChunk, chunkFragments]

theorem applyChunk_answer (la lt t : String) :
    applyChunk la lt ⟨some t, true, none⟩ =
      ((if la.length < t.length then t else la), lt) := by
  by_cases h : la.length < t.length <;> simp [applyChunk, h]

theorem applyChunk_reasoning (la lt t : String) :
    applyChunk la lt ⟨some t, false, none⟩ =
      (la, (if lt.length < t.length then t else lt)) := by
  by_cases h : lt.length < t.length <;> simp [applyChunk, h]

theorem accFold_eq (fs : List (String × Bool)) :
    ∀ p : String × String,
      accFold fs p =
        (((fs.filter fun q => q.2).map Prod.fst).foldl
            (fun acc t => if acc.length < t.length then t else acc) p.1,
         ((fs.filter fun q => !q.2).map Prod.fst).foldl
            (fun acc t => if acc.length < t.length then t else acc) p.2) := by
  induction fs with
  | nil => intro p; rfl
  | cons q fs ih =>
    intro p
    obtain ⟨t, b⟩ := q
    rw [accFold_cons]
    cases b with
    | true =>
      rw [applyChunk_answer, ih]
      simp [List.filter_cons]
    | false =>
      rw [applyChunk_reasoning, ih]
      simp [List.filter_cons]

theorem chunkFragments_long (parse : String → Option Json)
    (lines : List RawLine) (st : Bool) :
    ∀ p ∈ chunkFragments parse lines st, 20 < p.1.length := by
  intro p hp
  unfold chunkFragments at hp
  rw [List.mem_filterMap] at hp
  obtain ⟨c, _, hc⟩ := hp
  cases hx : (extractAnswerFromChunk parse c).text with
  | none => rw [hx] at hc; exact Option.noConfusion hc
  | some t =>
    rw [hx] at hc
    dsimp only [Option.map] at hc
    cases hc
    exact extractAnswerFromChunk_text_long parse c t hx

theorem foldl_longest_length (ts : List String) :
    ∀ acc : String,
      acc.length ≤ (ts.foldl
        (fun acc t => if acc.length < t.length then t else acc) acc).length := by
  induction ts with
  | nil => intro acc; exact Nat.le_refl _
  | cons t ts ih =>
    intro acc
    rw [List.foldl_cons]
    by_cases h : acc.length < t.length
    · rw [if_pos h]; exact Nat.le_trans (Nat.le_of_lt h) (ih t)
    · rw [if_neg h]; exact ih acc

theorem longestOf_ne_empty (ts : List String) (hne : ts ≠ [])
    (hlong : ∀ t ∈ ts, 0 < t.length) : longestOf ts ≠ "" := by
  cases ts with
  | nil => exact absurd rfl hne
  | cons t ts =>
    have hl : 0 < t.length := hlong t (by simp)
    unfold longestOf
    rw [List.foldl_cons]
    have h0 : ("" : String).length < t.length := hl
    rw [if_pos h0]
    intro hcontra
    have hlen := foldl_longest_length ts t
    rw [hcontra] at hlen
    simp at hlen
    omega

/-- C4 (confirmed).  The streaming decoder scans all chunks, keeps the
longest fragment per category, only accepts fragments longer than 20
characters, and returns the longest answer fragment when any answer
fragment was seen (even if a reasoning fragment is longer), otherwise the
longest reasoning fragment, otherwise the empty result. -/
theorem streaming_longest_fragment_policy :
    ∀ (parse : String → Option Json) (lines : List RawLine),
      ((∀ c ∈ examinedChunks lines false,
          (extractAnswerFromChunk parse c).error = none) →
        decodeQueryResponse parse lines =
          Except.ok (specLongestPolicy parse lines, none))
      ∧ (∀ (c : Option Json) (t : String),
          (extractAnswerFromChunk parse c).text = some t → 20 < t.length) := by
  intro parse lines
  refine ⟨?_, fun c t ht => extractAnswerFromChunk_text_long parse c t ht⟩
  intro h
  unfold decodeQueryResponse
  rw [decodeQueryLines_fold parse lines false "" "" h]
  rw [accFold_eq]
  dsimp only
  unfold specLongestPolicy longestOf
  by_cases hane :
      ((chunkFragments parse lines false).filter fun p => p.2).map Prod.fst = []
  · simp [hane]
  · have hne :
        (((chunkFragments parse lines false).filter fun p => p.2).map
          Prod.fst).foldl
            (fun acc t => if acc.length < t.length then t else acc) "" ≠ "" := by
      apply longestOf_ne_empty _ hane
      intro t htm
      rw [List.mem_map] at htm
      obtain ⟨p, hpf, hpt⟩ := htm
      have h20 := chunkFragments_long parse lines false p
        (List.mem_of_mem_filter hpf)
      rw [hpt] at h20
      omega
    simp only [longestOf] at hne
    simp [hane, hne]

/-- Witness for C4 at the specification's own scenario: a rejected
15-character answer fragment, a 40-character reasoning fragment and a
25-character answer fragment; the decoder returns the 25-character answer
even though the reasoning fragment is longer. -/
theorem streaming_longest_fragment_policy_witness :
    decodeQueryResponse qParse qLines =
        Except.ok (specLongestPolicy qParse qLines, none)
    ∧ specLongestPolicy qParse qLines = "answer-answer-answer-25ch" := by
  refine ⟨(streaming_longest_fragment_policy qParse qLines).1 (by decide), ?_⟩
  decide

/-- C10 (confirmed).  The streaming decoder never extracts a
server-assigned conversation identifier (the returned identifier slot is
always null), so QueryService.query returns the caller-supplied identifier
when one was given (and non-empty) and a freshly generated client-side
UUID otherwise. -/
theorem query_conversation_id_client_generated :
    ∀ (parse : String → Option Json) (lines : List RawLine)
      (res : String × Option String) (callerId : Option String) (uuid : String),
      decodeQueryResponse parse lines = Except.ok res →
      res.2 = none
      ∧ (∀ c : String, callerId = some c → c ≠ "" →
          queryReturnedId res.2 callerId uuid = c)
      ∧ (callerId = none → queryReturnedId res.2 callerId uuid = uuid) := by
  intro parse lines res callerId uuid h
  unfold decodeQueryResponse at h
  cases hd : decodeQueryLines parse lines false "" "" with
  | error e => rw [hd] at h; exact Except.noConfusion h
  | ok p =>
    rw [hd] at h
    obtain ⟨la, lt⟩ := p
    dsimp only at h
    cases h
    refine ⟨rfl, ?_, ?_⟩
    · intro c hcid hcne
      subst hcid
      simp [queryReturnedId, fallbackId, hcne]
    · intro hcid
      subst hcid
      rfl

/-- Witness for C10 on the empty streamed response with a caller-supplied
conversation identifier. -/
theorem query_conversation_id_client_generated_witness :
    (("", (none : Option String)) : String × Option String).2 = none
    ∧ queryReturnedId (("", (none : Option String)) : String × Option String).2
        (some "conv-7") "uuid-1" = "conv-7" := by
  obtain ⟨h1, h2, _⟩ := query_conversation_id_client_generated
    (fun _ => none) [] ("", none) (some "conv-7") "uuid-1" rfl
  exact ⟨h1, h2 "conv-7" rfl (by decide)⟩

/-! ### Theorems about strictEncode (claim C7) -/

theorem flatten_map_flatten {α β : Type} (g : α → List β) (l : List (List α)) :
    (l.flatten.map g).flatten = (l.map fun x => (x.map g).flatten).flatten := by
  induction l with
  | nil => rfl
  | cons x l ih =>
    simp only [List.flatten_cons, List.map_append, List.flatten_append,
      List.map_cons, ih]

theorem isAlphanum_not_reserved (c : Char) (h : c.isAlphanum = true) :
    ¬c ∈ ['!', Char.ofNat 39, '(', ')', '*'] := by
  intro hmem
  simp only [List.mem_cons, List.not_mem_nil, or_false] at hmem
  rcases hmem with rfl | rfl | rfl | rfl | rfl <;> exact absurd h (by decide)

/-- C7 (confirmed).  strictEncode acts independently on each character of
its input; it maps each of the five reserved characters to its two-digit
uppercase percent form and leaves alphanumerics and the four unreserved
marks untouched. -/
theorem strictEncode_spec :
    ∀ s : String,
      strictEncode s = ⟨(s.data.map fun c => (strictEncodeChar c).data).flatten⟩
      ∧ strictEncodeChar '!' = "%21"
      ∧ strictEncodeChar (Char.ofNat 39) = "%27"
      ∧ strictEncodeChar '(' = "%28"
      ∧ strictEncodeChar ')' = "%29"
      ∧ strictEncodeChar '*' = "%2A"
      ∧ (∀ c : Char, (c.isAlphanum || c ∈ ['-', '_', '.', '~']) = true →
          strictEncodeChar c = String.singleton c) := by
  intro s
  refine ⟨?_, by decide, by decide, by decide, by decide, by decide, ?_⟩
  · unfold strictEncode encodeURIComponent strictEncodeChar
    show String.mk _ = String.mk _
    congr 1
    rw [flatten_map_flatten, List.map_map]
    rfl
  · intro c h
    rw [Bool.or_eq_true] at h
    have hu : uriUnreservedChar c = true := by
      rcases h with h | h
      · simp [uriUnreservedChar, h]
      · rw [decide_eq_true_eq] at h
        simp only [List.mem_cons, List.not_mem_nil, or_false] at h
        rcases h with rfl | rfl | rfl | rfl <;> decide
    have hn : ¬c ∈ ['!', Char.ofNat 39, '(', ')', '*'] := by
      rcases h with h | h
      · exact isAlphanum_not_reserved c h
      · rw [decide_eq_true_eq] at h
        simp only [List.mem_cons, List.not_mem_nil, or_false] at h
        rcases h with rfl | rfl | rfl | rfl <;> decide
    unfold strictEncodeChar encodeURIComponentChar
    rw [if_pos hu]
    show String.mk ((strictReplaceChar c) ++ []) = _
    unfold strictReplaceChar
    rw [if_neg hn]
    rfl

/-- Witness for C7: the untouched-characters conjunct applied at concrete
alphanumeric and unreserved-mark inputs. -/
theorem strictEncode_spec_witness :
    strictEncodeChar 'a' = String.singleton 'a'
    ∧ strictEncodeChar '~' = String.singleton '~' :=
  ⟨(strictEncode_spec "").2.2.2.2.2.2 'a' (by decide),
   (strictEncode_spec "").2.2.2.2.2.2 '~' (by decide)⟩

/-! ### Theorems about the request-body encoding (claim C5) -/

/-- C5 (counterexample).  The claim asserts the encoded request body always
uses ASCII-escaped JSON and strict percent-encoding, but the client's own
buildRequestBody (src/client/api.ts) uses plain JSON.stringify and
encodeURIComponent: with token "a!" it emits the field at=a! where the
claimed construction emits at=a%21. -/
theorem plain_encoding_body_counterexample :
    buildRequestBody "r1" Json.null "a!" ≠ specRpcBody "r1" Json.null (some "a!") := by
  decide

/-- C5 (amended).  The body built by buildRpcBody (src/client/encoding.ts),
which the RpcTransport uses, equals the claimed construction: ASCII-escaped
parameter JSON wrapped as [[[callId, paramsJson, null, "generic"]]], that
wrapper ASCII-escaped again and strictly percent-encoded as the field
f.req, an at field holding the strictly encoded token when present
(non-empty), and a trailing ampersand; the legacy client's buildRequestBody
instead applies default JSON serialization and standard percent-encoding. -/
theorem intercalate_single (sep a : String) : String.intercalate sep [a] = a :=
  rfl

theorem intercalate_pair (sep a b : String) :
    String.intercalate sep [a, b] = a ++ sep ++ b :=
  rfl

theorem buildRpcBody_matches_contract :
    ∀ (rpcId : String) (params : Json) (tok : Option String),
      buildRpcBody rpcId params tok = specRpcBody rpcId params tok := by
  intro rpcId params tok
  unfold buildRpcBody specRpcBody
  cases tok with
  | none =>
    simp only [tokenPresent, Bool.false_eq_true, if_false, String.append_empty]
    rw [intercalate_single]
  | some t =>
    dsimp only
    by_cases ht : t = ""
    · subst ht
      rw [if_pos rfl, intercalate_single]
      have hp : tokenPresent (some "") = false := by simp [tokenPresent]
      rw [hp]
      simp
    · rw [if_neg ht, intercalate_pair]
      have hp : tokenPresent (some t) = true := by simp [tokenPresent, ht]
      rw [hp, if_pos rfl]
      simp only [String.append_assoc]
      have h2 : ("&" : String) ++ "at=" = "&at=" := by decide
      rw [show ∀ x : String, ("&" : String) ++ ("at=" ++ x) = "&at=" ++ x
        from fun x => by rw [← String.append_assoc, h2]]
      rfl

/-! ### Character-level facts for the round-trip proof (claim C8) -/

theorem toNat_ofNat_valid (n : Nat)
    (h : n < 0xD800 ∨ (0xDFFF < n ∧ n < 0x110000)) :
    (Char.ofNat n).toNat = n := by
  unfold Char.ofNat
  rw [dif_pos]
  · rfl
  · rcases h with h | ⟨h1, h2⟩
    · left; exact_mod_cast h
    · right; exact ⟨by exact_mod_cast h1, by exact_mod_cast h2⟩

theorem char_valid (c : Char) :
    c.toNat < 0xD800 ∨ (0xDFFF < c.toNat ∧ c.toNat < 0x110000) := by
  have h := c.valid
  rcases h with h | ⟨h1, h2⟩
  · left; exact_mod_cast h
  · right; exact ⟨by exact_mod_cast h1, by exact_mod_cast h2⟩

theorem hexLowerChar_toNat (x : Nat) (hx : x < 16) :
    (hexLowerChar x).toNat = if x < 10 then 48 + x else 87 + x := by
  unfold hexLowerChar
  exact toNat_ofNat_valid _ (by split <;> omega)

theorem hexLowerChar_ascii (x : Nat) (hx : x < 16) :
    (hexLowerChar x).toNat < 0x7F := by
  rw [hexLowerChar_toNat x hx]
  split <;> omega

theorem hexVal_hexLower (x : Nat) (hx : x < 16) :
    hexVal (hexLowerChar x) = some x := by
  unfold hexVal
  rw [hexLowerChar_toNat x hx]
  by_cases h10 : x < 10
  · rw [if_pos h10, if_pos (by omega)]
    congr 1
    omega
  · rw [if_neg h10, if_neg (by omega), if_pos (by omega)]
    congr 1
    omega

theorem asciiEscapeChar_of_lt (c : Char) (h : c.toNat < 0x7F) :
    asciiEscapeChar c = [c] := by
  unfold asciiEscapeChar
  rw [if_pos h]

theorem parse_unicode_escape (n : Nat) (hn : n < 0x10000) (rest : List Char) :
    parseStrUnits ('\\' :: 'u' :: (hex4Lower n ++ rest)) =
      (parseStrUnits rest).map fun p => (n :: p.1, p.2) := by
  have h1 : n / 4096 % 16 < 16 := Nat.mod_lt _ (by omega)
  have h2 : n / 256 % 16 < 16 := Nat.mod_lt _ (by omega)
  have h3 : n / 16 % 16 < 16 := Nat.mod_lt _ (by omega)
  have h4 : n % 16 < 16 := Nat.mod_lt _ (by omega)
  rw [parseStrUnits.eq_def, hex4Lower]
  simp only [reduceIte, List.cons_append, List.nil_append]
  rw [if_neg (show ('\\' : Char) ≠ '"' from by decide)]
  rw [hexVal_hexLower _ h1, hexVal_hexLower _ h2, hexVal_hexLower _ h3,
    hexVal_hexLower _ h4]
  dsimp only
  cases hp : parseStrUnits rest with
  | none => rfl
  | some p =>
    obtain ⟨us, r⟩ := p
    dsimp only [Option.map]
    have harith : n / 4096 % 16 * 4096 + n / 256 % 16 * 256 +
        n / 16 % 16 * 16 + n % 16 = n := by omega
    rw [harith]

theorem parse_short_escape (e : Char) (u : Nat) (hu : escMap e = some u)
    (hne : e ≠ 'u') (rest : List Char) :
    parseStrUnits ('\\' :: e :: rest) =
      (parseStrUnits rest).map fun p => (u :: p.1, p.2) := by
  rw [parseStrUnits.eq_def]
  simp only [reduceIte]
  rw [if_neg hne, hu]
  cases hp : parseStrUnits rest with
  | none => rfl
  | some p => obtain ⟨us, r⟩ := p; rfl

theorem parse_raw_char (c : Char) (h1 : c ≠ '"') (h2 : c ≠ '\\')
    (h3 : ¬c.toNat < 0x20) (rest : List Char) :
    parseStrUnits (c :: rest) =
      (parseStrUnits rest).map fun p => (toUtf16 c ++ p.1, p.2) := by
  rw [parseStrUnits.eq_def]
  dsimp only
  rw [if_neg h1, if_neg h2, if_neg h3]
  cases hp : parseStrUnits rest with
  | none => rfl
  | some p => obtain ⟨us, r⟩ := p; rfl

theorem parse_encodedChar (c : Char) (rest : List Char) :
    parseStrUnits (encodedChar c ++ rest) =
      (parseStrUnits rest).map fun p => (toUtf16 c ++ p.1, p.2) := by
  by_cases hq : c = '"'
  · subst hq
    rw [show encodedChar '"' ++ rest = '\\' :: '"' :: rest from rfl]
    rw [parse_short_escape '"' 34 (by decide) (by decide) rest]
    rfl
  by_cases hb : c = '\\'
  · subst hb
    rw [show encodedChar '\\' ++ rest = '\\' :: '\\' :: rest from rfl]
    rw [parse_short_escape '\\' 92 (by decide) (by decide) rest]
    rfl
  by_cases h8 : c = Char.ofNat 8
  · subst h8
    rw [show encodedChar (Char.ofNat 8) ++ rest = '\\' :: 'b' :: rest from rfl]
    rw [parse_short_escape 'b' 8 (by decide) (by decide) rest]
    rfl
  by_cases h9 : c = Char.ofNat 9
  · subst h9
    rw [show encodedChar (Char.ofNat 9) ++ rest = '\\' :: 't' :: rest from rfl]
    rw [parse_short_escape 't' 9 (by decide) (by decide) rest]
    rfl
  by_cases h10 : c = Char.ofNat 10
  · subst h10
    rw [show encodedChar (Char.ofNat 10) ++ rest = '\\' :: 'n' :: rest from rfl]
    rw [parse_short_escape 'n' 10 (by decide) (by decide) rest]
    rfl
  by_cases h12 : c = Char.ofNat 12
  · subst h12
    rw [show encodedChar (Char.ofNat 12) ++ rest = '\\' :: 'f' :: rest from rfl]
    rw [parse_short_escape 'f' 12 (by decide) (by decide) rest]
    rfl
  by_cases h13 : c = Char.ofNat 13
  · subst h13
    rw [show encodedChar (Char.ofNat 13) ++ rest = '\\' :: 'r' :: rest from rfl]
    rw [parse_short_escape 'r' 13 (by decide) (by decide) rest]
    rfl
  by_cases hctl : c.toNat < 0x20
  · have hqc : quoteJsonChar c = '\\' :: 'u' :: hex4Lower c.toNat := by
      unfold quoteJsonChar
      rw [if_neg hq, if_neg hb, if_neg h8, if_neg h9, if_neg h10, if_neg h12,
        if_neg h13, if_pos hctl]
    have henc : encodedChar c = '\\' :: 'u' :: hex4Lower c.toNat := by
      unfold encodedChar
      rw [hqc, hex4Lower]
      simp only [List.map_cons, List.map_nil, List.flatten_cons,
        List.flatten_nil, List.append_nil]
      rw [show asciiEscapeChar '\\' = ['\\'] from rfl,
        show asciiEscapeChar 'u' = ['u'] from rfl]
      rw [asciiEscapeChar_of_lt _ (hexLowerChar_ascii _ (Nat.mod_lt _ (by omega))),
        asciiEscapeChar_of_lt _ (hexLowerChar_ascii _ (Nat.mod_lt _ (by omega))),
        asciiEscapeChar_of_lt _ (hexLowerChar_ascii _ (Nat.mod_lt _ (by omega))),
        asciiEscapeChar_of_lt _ (hexLowerChar_ascii _ (Nat.mod_lt _ (by omega)))]
      rfl
    rw [henc]
    rw [show ('\\' :: 'u' :: hex4Lower c.toNat) ++ rest
        = '\\' :: 'u' :: (hex4Lower c.toNat ++ rest) from rfl]
    rw [parse_unicode_escape c.toNat (by omega) rest]
    rw [show toUtf16 c = [c.toNat] from by unfold toUtf16; rw [if_pos (by omega)]]
    rfl
  have hqc : quoteJsonChar c = [c] := by
    unfold quoteJsonChar
    rw [if_neg hq, if_neg hb, if_neg h8, if_neg h9, if_neg h10, if_neg h12,
      if_neg h13, if_neg hctl]
  by_cases hbmp : c.toNat < 0x7F
  · have henc : encodedChar c = [c] := by
      unfold encodedChar
      rw [hqc]
      simp [asciiEscapeChar_of_lt c hbmp]
    rw [henc]
    rw [show ([c] : List Char) ++ rest = c :: rest from rfl]
    rw [parse_raw_char c hq hb hctl rest]
  by_cases hbmp2 : c.toNat < 0x10000
  · have henc : encodedChar c = '\\' :: 'u' :: hex4Lower c.toNat := by
      unfold encodedChar
      rw [hqc]
      simp only [List.map_cons, List.map_nil, List.flatten_cons,
        List.flatten_nil, List.append_nil]
      unfold asciiEscapeChar
      rw [if_neg hbmp]
      rw [show toUtf16 c = [c.toNat] from by unfold toUtf16; rw [if_pos hbmp2]]
      rfl
    rw [henc]
    rw [show ('\\' :: 'u' :: hex4Lower c.toNat) ++ rest
        = '\\' :: 'u' :: (hex4Lower c.toNat ++ rest) from rfl]
    rw [parse_unicode_escape c.toNat hbmp2 rest]
    rw [show toUtf16 c = [c.toNat] from by unfold toUtf16; rw [if_pos hbmp2]]
    rfl
  · have hval := char_valid c
    have htu : toUtf16 c =
        [0xD800 + (c.toNat - 0x10000) / 0x400,
         0xDC00 + (c.toNat - 0x10000) % 0x400] := by
      unfold toUtf16
      rw [if_neg hbmp2]
    have hhi : 0xD800 + (c.toNat - 0x10000) / 0x400 < 0x10000 := by omega
    have hlo : 0xDC00 + (c.toNat - 0x10000) % 0x400 < 0x10000 := by omega
    have henc : encodedChar c =
        '\\' :: 'u' :: (hex4Lower (0xD800 + (c.toNat - 0x10000) / 0x400) ++
          ('\\' :: 'u' :: (hex4Lower (0xDC00 + (c.toNat - 0x10000) % 0x400)
            ++ []))) := by
      unfold encodedChar
      rw [hqc]
      simp only [List.map_cons, List.map_nil, List.flatten_cons,
        List.flatten_nil, List.append_nil]
      unfold asciiEscapeChar
      rw [if_neg hbmp, htu]
      rfl
    rw [henc]
    rw [show ('\\' :: 'u' :: (hex4Lower (0xD800 + (c.toNat - 0x10000) / 0x400)
        ++ ('\\' :: 'u' :: (hex4Lower (0xDC00 + (c.toNat - 0x10000) % 0x400)
          ++ [])))) ++ rest
        = '\\' :: 'u' :: (hex4Lower (0xD800 + (c.toNat - 0x10000) / 0x400)
        ++ ('\\' :: 'u' :: (hex4Lower (0xDC00 + (c.toNat - 0x10000) % 0x400)
          ++ rest))) from by simp]
    rw [parse_unicode_escape _ hhi, parse_unicode_escape _ hlo, htu]
    cases hp : parseStrUnits rest with
    | none => rfl
    | some p => rfl

theorem parse_all (l : List Char) :
    parseStrUnits ((l.map encodedChar).flatten ++ ['"']) =
      some ((l.map toUtf16).flatten, []) := by
  induction l with
  | nil => rfl
  | cons c l ih =>
    simp only [List.map_cons, List.flatten_cons, List.append_assoc]
    rw [parse_encodedChar c _, ih]
    rfl

theorem combine_toUtf16 (c : Char) (us : List Nat) :
    combineUnits (toUtf16 c ++ us) = (combineUnits us).map fun cs => c :: cs := by
  have hval := char_valid c
  by_cases hb : c.toNat < 0x10000
  · rw [show toUtf16 c = [c.toNat] from by unfold toUtf16; rw [if_pos hb]]
    rw [show ([c.toNat] : List Nat) ++ us = c.toNat :: us from rfl]
    rw [combineUnits.eq_def]
    dsimp only
    rw [if_neg (by omega), if_neg (by omega)]
    cases hc : combineUnits us with
    | none => rfl
    | some cs =>
      dsimp only [Option.map]
      rw [Char.ofNat_toNat]
  · rw [show toUtf16 c = [0xD800 + (c.toNat - 0x10000) / 0x400,
        0xDC00 + (c.toNat - 0x10000) % 0x400] from by
      unfold toUtf16; rw [if_neg hb]]
    rw [show ([0xD800 + (c.toNat - 0x10000) / 0x400,
        0xDC00 + (c.toNat - 0x10000) % 0x400] : List Nat) ++ us
        = (0xD800 + (c.toNat - 0x10000) / 0x400) ::
          ((0xDC00 + (c.toNat - 0x10000) % 0x400) :: us) from rfl]
    rw [combineUnits.eq_def]
    dsimp only
    rw [if_pos (by omega)]
    rw [if_pos (by omega)]
    cases hc : combineUnits us with
    | none => rfl
    | some cs =>
      dsimp only [Option.map]
      have harith : 0x10000 +
          (0xD800 + (c.toNat - 0x10000) / 0x400 - 0xD800) * 0x400 +
          (0xDC00 + (c.toNat - 0x10000) % 0x400 - 0xDC00) = c.toNat := by
        omega
      rw [harith, Char.ofNat_toNat]

theorem combine_all (l : List Char) :
    combineUnits ((l.map toUtf16).flatten) = some l := by
  induction l with
  | nil => rfl
  | cons c l ih =>
    simp only [List.map_cons, List.flatten_cons]
    rw [combine_toUtf16, ih]
    rfl

theorem asciiEscapeChar_ascii (c : Char) :
    ∀ d ∈ asciiEscapeChar c, d.toNat < 0x80 := by
  intro d hd
  unfold asciiEscapeChar at hd
  by_cases h : c.toNat < 0x7F
  · rw [if_pos h] at hd
    simp only [List.mem_singleton] at hd
    subst hd
    omega
  · rw [if_neg h] at hd
    simp only [List.mem_flatten, List.mem_map] at hd
    obtain ⟨ls, ⟨u, hu, rfl⟩, hdl⟩ := hd
    simp only [List.mem_cons] at hdl
    rcases hdl with rfl | rfl | hdl
    · decide
    · decide
    · unfold hex4Lower at hdl
      simp only [List.mem_cons, List.not_mem_nil, or_false] at hdl
      rcases hdl with rfl | rfl | rfl | rfl
      · have := hexLowerChar_ascii (u / 4096 % 16) (Nat.mod_lt _ (by omega))
        omega
      · have := hexLowerChar_ascii (u / 256 % 16) (Nat.mod_lt _ (by omega))
        omega
      · have := hexLowerChar_ascii (u / 16 % 16) (Nat.mod_lt _ (by omega))
        omega
      · have := hexLowerChar_ascii (u % 16) (Nat.mod_lt _ (by omega))
        omega

theorem asciiReplace_ascii (s : String) :
    ∀ d ∈ (asciiReplace s).data, d.toNat < 0x80 := by
  intro d hd
  have hd2 : d ∈ (s.data.map asciiEscapeChar).flatten := hd
  simp only [List.mem_flatten, List.mem_map] at hd2
  obtain ⟨ls, ⟨c, _, rfl⟩, hdl⟩ := hd2
  exact asciiEscapeChar_ascii c d hdl

theorem stringifyAscii_str_data (s : String) :
    (jsonStringifyAscii (Json.str s)).data =
      '"' :: ((s.data.map encodedChar).flatten ++ ['"']) := by
  show ((jsonQuote s).map asciiEscapeChar).flatten = _
  unfold jsonQuote
  simp only [List.map_cons, List.map_append, List.map_nil, List.flatten_cons,
    List.flatten_append, List.flatten_nil]
  rw [show asciiEscapeChar '"' = ['"'] from rfl]
  rw [flatten_map_flatten, List.map_map]
  rfl

/-- C8 (confirmed).  For strings containing characters above 0x7F, the
ASCII-escaped JSON serialization contains no character above 0x7F, and a
standard JSON parser reading the produced string literal recovers the
original string exactly. -/
theorem jsonStringifyAscii_roundtrip :
    ∀ s : String, (∃ c ∈ s.data, 0x7F < c.toNat) →
      (∀ c ∈ (jsonStringifyAscii (Json.str s)).data, c.toNat < 0x80)
      ∧ jsonParseStringLit (jsonStringifyAscii (Json.str s)) = some s := by
  intro s _
  constructor
  · intro c hc
    exact asciiReplace_ascii _ c hc
  · unfold jsonParseStringLit
    rw [stringifyAscii_str_data]
    dsimp only
    rw [if_pos rfl]
    rw [parse_all]
    dsimp only
    rw [combine_all]

/-- Witness for C8 at a concrete non-ASCII string. -/
theorem jsonStringifyAscii_roundtrip_witness :
    (∀ c ∈ (jsonStringifyAscii (Json.str "é")).data, c.toNat < 0x80)
    ∧ jsonParseStringLit (jsonStringifyAscii (Json.str "é")) = some "é" :=
  jsonStringifyAscii_roundtrip "é" (by decide)

/-! ### Theorems about the credential manager and transport (C2, C3, C9) -/

theorem doRefreshRun_cdp_le_one (env : MgrEnv) (st : AuthState) :
    (doRefreshRun env st).2.2.2 ≤ 1 := by
  unfold doRefreshRun doRefreshRun.doRefreshLayers34
  repeat' split
  all_goals simp

theorem runCalls_inflight (p : Nat) :
    ∀ (n : Nat) (s : SFState), s.mutex = some p →
      runCalls n s = (List.replicate n p, s) := by
  intro n
  induction n with
  | zero => intro s _; rfl
  | succ k ih =>
    intro s h
    rw [runCalls]
    have hc : callRefresh s = (p, s) := by unfold callRefresh; rw [h]
    rw [hc]
    dsimp only
    rw [ih s h]
    rfl

/-- C2 (confirmed).  Under the cooperative model of the promise-caching
mutex, N simultaneous refresh() calls launch exactly one underlying
doRefresh execution, every caller is handed the same promise (hence the
same eventual success/failure outcome), and one doRefresh execution invokes
the browser-automation provider at most once. -/
theorem refresh_single_flight :
    ∀ n : Nat, 2 ≤ n →
      ∀ (env : MgrEnv) (st : AuthState) (outcome : Nat → Bool),
        (runCalls n sfInit).2.launches = 1
        ∧ (runCalls n sfInit).1.map outcome = List.replicate n (outcome 0)
        ∧ (doRefreshRun env st).2.2.2 ≤ 1 := by
  intro n hn env st outcome
  obtain ⟨k, rfl⟩ : ∃ k, n = k + 1 := ⟨n - 1, by omega⟩
  have h1 : runCalls (k + 1) sfInit =
      (0 :: List.replicate k 0, ⟨some 0, 1, 1⟩) := by
    rw [runCalls]
    have hc : callRefresh sfInit = (0, ⟨some 0, 1, 1⟩) := rfl
    rw [hc]
    dsimp only
    rw [runCalls_inflight 0 k ⟨some 0, 1, 1⟩ rfl]
  refine ⟨by rw [h1], ?_, doRefreshRun_cdp_le_one env st⟩
  rw [h1]
  simp [List.replicate_succ]

/-- Witness for C2 at three simultaneous callers. -/
theorem refresh_single_flight_witness :
    (runCalls 3 sfInit).2.launches = 1
    ∧ (runCalls 3 sfInit).1.map (fun _ => true) = List.replicate 3 true := by
  obtain ⟨h1, h2, _⟩ := refresh_single_flight 3 (by decide)
    ⟨0, 0, none, FetchRes.err, FetchRes.err, false, none⟩
    AuthState.unauthenticated (fun _ => true)
  exact ⟨h1, h2⟩

theorem countRefresh_attempt (tr : List REv) :
    countRefresh (REv.attemptEv :: tr) = countRefresh tr := by
  simp [countRefresh, List.countP_cons]

theorem countRefresh_sleep (tr : List REv) :
    countRefresh (REv.sleepEv :: tr) = countRefresh tr := by
  simp [countRefresh, List.countP_cons]

theorem countRefresh_refresh (tr : List REv) :
    countRefresh (REv.refreshEv :: tr) = countRefresh tr + 1 := by
  simp [countRefresh, List.countP_cons]

theorem countRefresh_le (att : Nat → AttemptOut) (refreshOk : Bool)
    (maxRetries : Nat) :
    ∀ (fuel attempt : Nat) (b : Bool),
      countRefresh (runRecovery att refreshOk maxRetries fuel attempt b).2
        ≤ if b then 0 else 1 := by
  intro fuel
  induction fuel with
  | zero =>
    intro attempt b
    cases b <;> simp [runRecovery, countRefresh]
  | succ f ih =>
    intro attempt b
    rw [runRecovery]
    dsimp only
    rw [countRefresh_attempt]
    cases hatt : att attempt with
    | fetchThrow authMsg =>
      dsimp only
      by_cases hg : (authMsg && !b) = true
      · rw [if_pos hg]
        have hb : b = false := by
          cases b
          · rfl
          · simp at hg
        subst hb
        by_cases hro : refreshOk = true
        · rw [if_pos hro]
          cases hrec : runRecovery att refreshOk maxRetries f (attempt + 1) true with
          | mk r tr =>
            dsimp only
            rw [countRefresh_refresh]
            have := ih (attempt + 1) true
            rw [hrec] at this
            simp at this
            simp [this]
        · rw [if_neg hro]
          simp [countRefresh_refresh, countRefresh]
      · rw [if_neg hg]
        by_cases hlt : attempt < maxRetries
        · rw [if_pos hlt]
          cases hrec : runRecovery att refreshOk maxRetries f (attempt + 1) b with
          | mk r tr =>
            dsimp only
            rw [countRefresh_sleep]
            have := ih (attempt + 1) b
            rw [hrec] at this
            exact this
        · rw [if_neg hlt]
          cases b <;> simp [countRefresh]
    | response st p =>
      dsimp only
      by_cases hg : (isAuthErrorStatus st && !b) = true
      · rw [if_pos hg]
        have hb : b = false := by
          cases b
          · rfl
          · simp at hg
        subst hb
        by_cases hro : refreshOk = true
        · rw [if_pos hro]
          cases hrec : runRecovery att refreshOk maxRetries f (attempt + 1) true with
          | mk r tr =>
            dsimp only
            rw [countRefresh_refresh]
            have := ih (attempt + 1) true
            rw [hrec] at this
            simp at this
            simp [this]
        · rw [if_neg hro]
          simp [countRefresh_refresh, countRefresh]
      · rw [if_neg hg]
        by_cases hret : (!isOkStatus st && isRetryableStatus st) = true
        · rw [if_pos hret]
          by_cases hlt : attempt < maxRetries
          · rw [if_pos hlt]
            cases hrec : runRecovery att refreshOk maxRetries f (attempt + 1) b with
            | mk r tr =>
              dsimp only
              rw [countRefresh_sleep]
              have := ih (attempt + 1) b
              rw [hrec] at this
              exact this
          · rw [if_neg hlt]
            cases b <;> simp [countRefresh]
        · rw [if_neg hret]
          by_cases hok : (!isOkStatus st) = true
          · rw [if_pos hok]
            cases b <;> simp [countRefresh]
          · rw [if_neg hok]
            cases p with
            | ok => cases b <;> simp [countRefresh]
            | threw authMsg =>
              dsimp only
              by_cases hg2 : (authMsg && !b) = true
              · rw [if_pos hg2]
                have hb : b = false := by
                  cases b
                  · rfl
                  · simp at hg2
                subst hb
                by_cases hro : refreshOk = true
                · rw [if_pos hro]
                  cases hrec : runRecovery att refreshOk maxRetries f (attempt + 1) true with
                  | mk r tr =>
                    dsimp only
                    rw [countRefresh_refresh]
                    have := ih (attempt + 1) true
                    rw [hrec] at this
                    simp at this
                    simp [this]
                · rw [if_neg hro]
                  by_cases hlt : attempt < maxRetries
                  · rw [if_pos hlt]
                    cases hrec : runRecovery att refreshOk maxRetries f (attempt + 1) true with
                    | mk r tr =>
                      dsimp only
                      rw [countRefresh_refresh, countRefresh_sleep]
                      have := ih (attempt + 1) true
                      rw [hrec] at this
                      simp at this
                      simp [this]
                  · rw [if_neg hlt]
                    simp [countRefresh_refresh, countRefresh]
              · rw [if_neg hg2]
                by_cases hlt : attempt < maxRetries
                · rw [if_pos hlt]
                  cases hrec : runRecovery att refreshOk maxRetries f (attempt + 1) b with
                  | mk r tr =>
                    dsimp only
                    rw [countRefresh_sleep]
                    have := ih (attempt + 1) b
                    rw [hrec] at this
                    exact this
                · rw [if_neg hlt]
                  cases b <;> simp [countRefresh]

theorem noSleep_attempt (tr : List REv) :
    noSleepAfterRefresh (REv.attemptEv :: tr) = noSleepAfterRefresh tr := by
  cases tr with
  | nil => rfl
  | cons b r => simp [noSleepAfterRefresh]

theorem noSleep_sleep (tr : List REv) :
    noSleepAfterRefresh (REv.sleepEv :: tr) = noSleepAfterRefresh tr := by
  cases tr with
  | nil => rfl
  | cons b r => simp [noSleepAfterRefresh]

theorem noSleep_refresh_attempt (tr : List REv) :
    noSleepAfterRefresh (REv.refreshEv :: REv.attemptEv :: tr)
      = noSleepAfterRefresh (REv.attemptEv :: tr) := by
  simp [noSleepAfterRefresh]

theorem noSleep_refresh_run (att : Nat → AttemptOut) (maxRetries : Nat)
    (fuel a : Nat) (b' : Bool)
    (ih : noSleepAfterRefresh (runRecovery att true maxRetries fuel a b').2 = true) :
    noSleepAfterRefresh
      (REv.refreshEv :: (runRecovery att true maxRetries fuel a b').2) = true := by
  cases fuel with
  | zero => rfl
  | succ f =>
    rw [runRecovery] at ih ⊢
    dsimp only at ih ⊢
    rw [noSleep_refresh_attempt]
    exact ih

theorem runRecovery_noSleep (att : Nat → AttemptOut) (maxRetries : Nat) :
    ∀ (fuel attempt : Nat) (b : Bool),
      noSleepAfterRefresh (runRecovery att true maxRetries fuel attempt b).2 = true := by
  intro fuel
  induction fuel with
  | zero => intro attempt b; rfl
  | succ f ih =>
    intro attempt b
    rw [runRecovery]
    dsimp only
    rw [noSleep_attempt]
    cases hatt : att attempt with
    | fetchThrow authMsg =>
      dsimp only
      by_cases hg : (authMsg && !b) = true
      · rw [if_pos hg, if_pos rfl]
        cases hrec : runRecovery att true maxRetries f (attempt + 1) true with
        | mk r tr =>
          dsimp only
          have h2 := noSleep_refresh_run att maxRetries f (attempt + 1) true
            (ih (attempt + 1) true)
          rw [hrec] at h2
          exact h2
      · rw [if_neg hg]
        by_cases hlt : attempt < maxRetries
        · rw [if_pos hlt]
          cases hrec : runRecovery att true maxRetries f (attempt + 1) b with
          | mk r tr =>
            dsimp only
            rw [noSleep_sleep]
            have := ih (attempt + 1) b
            rw [hrec] at this
            exact this
        · rw [if_neg hlt]; rfl
    | response st p =>
      dsimp only
      by_cases hg : (isAuthErrorStatus st && !b) = true
      · rw [if_pos hg, if_pos rfl]
        cases hrec : runRecovery att true maxRetries f (attempt + 1) true with
        | mk r tr =>
          dsimp only
          have h2 := noSleep_refresh_run att maxRetries f (attempt + 1) true
            (ih (attempt + 1) true)
          rw [hrec] at h2
          exact h2
      · rw [if_neg hg]
        by_cases hret : (!isOkStatus st && isRetryableStatus st) = true
        · rw [if_pos hret]
          by_cases hlt : attempt < maxRetries
          · rw [if_pos hlt]
            cases hrec : runRecovery att true maxRetries f (attempt + 1) b with
            | mk r tr =>
              dsimp only
              rw [noSleep_sleep]
              have := ih (attempt + 1) b
              rw [hrec] at this
              exact this
          · rw [if_neg hlt]; rfl
        · rw [if_neg hret]
          by_cases hok : (!isOkStatus st) = true
          · rw [if_pos hok]; rfl
          · rw [if_neg hok]
            cases p with
            | ok => rfl
            | threw authMsg =>
              dsimp only
              by_cases hg2 : (authMsg && !b) = true
              · rw [if_pos hg2, if_pos rfl]
                cases hrec : runRecovery att true maxRetries f (attempt + 1) true with
                | mk r tr =>
                  dsimp only
                  have h2 := noSleep_refresh_run att maxRetries f (attempt + 1) true
                    (ih (attempt + 1) true)
                  rw [hrec] at h2
                  exact h2
              · rw [if_neg hg2]
                by_cases hlt : attempt < maxRetries
                · rw [if_pos hlt]
                  cases hrec : runRecovery att true maxRetries f (attempt + 1) b with
                  | mk r tr =>
                    dsimp only
                    rw [noSleep_sleep]
                    have := ih (attempt + 1) b
                    rw [hrec] at this
                    exact this
                · rw [if_neg hlt]; rfl

/-- C3 (confirmed).  Over every sequence of attempt outcomes, the transport
invokes the auth-refresh callback at most once per logical call, even when
both an HTTP 401/403 and a decode-time authentication error occur; and when
the refresh callback reports success, no backoff sleep ever follows the
refresh: the retry attempt is immediate. -/
theorem transport_auth_retry_once_immediate :
    ∀ (att : Nat → AttemptOut) (refreshOk : Bool) (maxRetries : Nat),
      countRefresh (fetchWithRecovery att refreshOk maxRetries).2 ≤ 1
      ∧ (refreshOk = true →
          noSleepAfterRefresh (fetchWithRecovery att refreshOk maxRetries).2
            = true) := by
  intro att r m
  constructor
  · have h := countRefresh_le att r m (m + 1) 0 false
    simpa using h
  · intro hr
    subst hr
    exact runRecovery_noSleep att m (m + 1) 0 false

/-- Witness for C3: HTTP 401 on the first attempt, successful refresh, and
success on the immediate retry; the trace shows attempt, refresh, attempt
with no sleep. -/
theorem transport_auth_retry_once_immediate_witness :
    countRefresh (fetchWithRecovery
        (fun n => if n = 0 then AttemptOut.response 401 ParseOut.ok
          else AttemptOut.response 200 ParseOut.ok) true 3).2 ≤ 1
    ∧ noSleepAfterRefresh [REv.attemptEv, REv.refreshEv, REv.attemptEv] = true := by
  obtain ⟨h1, h2⟩ := transport_auth_retry_once_immediate
    (fun n => if n = 0 then AttemptOut.response 401 ParseOut.ok
      else AttemptOut.response 200 ParseOut.ok) true 3
  refine ⟨h1, ?_⟩
  have he : (fetchWithRecovery
      (fun n => if n = 0 then AttemptOut.response 401 ParseOut.ok
        else AttemptOut.response 200 ParseOut.ok) true 3).2
      = [REv.attemptEv, REv.refreshEv, REv.attemptEv] := by decide
  have h3 := h2 rfl
  rw [he] at h3
  exact h3

/-- C9 (confirmed).  While the manager is authenticated and the token age
is within the proactive-refresh window, ensureValid performs zero network
calls and zero browser-automation calls, leaves the state unchanged, and
reports success; iterating it any number of times leaves the state fixed. -/
theorem ensureValid_idempotent :
    ∀ (env : MgrEnv) (t : AuthTokens) (r : Int),
      needsCsrfRefresh env.nowMs (AuthState.authenticated t r) = false →
      ensureValidRun env (AuthState.authenticated t r)
          = (true, AuthState.authenticated t r, 0, 0)
      ∧ ∀ k : Nat,
          (fun st => (ensureValidRun env st).2.1)^[k]
              (AuthState.authenticated t r)
            = AuthState.authenticated t r := by
  intro env t r h
  have h1 : ensureValidRun env (AuthState.authenticated t r)
      = (true, AuthState.authenticated t r, 0, 0) := by
    unfold ensureValidRun
    dsimp only
    rw [if_neg (by simp [h])]
  refine ⟨h1, fun k => Function.iterate_fixed ?_ k⟩
  show (ensureValidRun env (AuthState.authenticated t r)).2.1
      = AuthState.authenticated t r
  rw [h1]

/-- Witness for C9 at a concrete environment and token set. -/
theorem ensureValid_idempotent_witness :
    ensureValidRun ⟨0, 0, none, FetchRes.err, FetchRes.err, false, none⟩
        (AuthState.authenticated ⟨[], "", "", 0⟩ 0)
      = (true, AuthState.authenticated ⟨[], "", "", 0⟩ 0, 0, 0) :=
  (ensureValid_idempotent ⟨0, 0, none, FetchRes.err, FetchRes.err, false, none⟩
    ⟨[], "", "", 0⟩ 0 (by decide)).1

end NotebookLM
